import Mathlib

/-!
Shallow embedding of `pyvolt/measurement.py` (classes `Measurement` and
`MeasurementSet`) over exact rationals.  Floating point numbers are modelled
by `ℚ`; the transcendental helpers `np.cos`, `np.sin` and the constant
`np.sqrt(3)` are passed in as explicit parameters (`c`, `s'`, `sqrt3`), since
the source only ever applies them pointwise.  Random draws are modelled by an
abstract stream `z : Nat → ℚ` of underlying samples; `np.random.normal(loc,
scale, n)` is the location-scale transform `loc + scale * z i` of a standard
draw, and `np.random.uniform(-1, 1, n)` yields `z i` constrained to `[-1, 1)`
where a proof needs it.
-/

namespace Pyvolt

/-- Embeds enum `ElemType` (measurement.py lines 6-8). -/
inductive ElemType where
  | Node
  | Branch
deriving DecidableEq, Repr

/-- Embeds enum `MeasType` (measurement.py lines 11-25). -/
inductive MeasType where
  | V_mag
  | Sinj_real
  | Sinj_imag
  | S1_real
  | S1_imag
  | I_mag
  | Vpmu_mag
  | Vpmu_phase
  | Ipmu_mag
  | Ipmu_phase
  | S2_real
  | S2_imag
  | Ipmu_inj_mag
  | Ipmu_inj_phase
deriving DecidableEq, Repr

/-- The topology element a measurement points to: the source reads only
`uuid`, `baseVoltage`, `base_current` and `base_apparent_power` from it. -/
structure Element where
  uuid : String
  baseVoltage : ℚ
  base_current : ℚ
  base_apparent_power : ℚ
deriving DecidableEq, Repr

/-- Embeds class `Measurement` (measurement.py lines 28-53): the constructor
stores the five arguments and zero-initialises the four mutable fields. -/
structure Measurement where
  element : Element
  element_type : ElemType
  meas_type : MeasType
  meas_value_ideal : ℚ
  unc : ℚ
  std_dev : ℚ := 0
  std_dev_act : ℚ := 0
  meas_value : ℚ := 0
  meas_value_act : ℚ := 0
deriving DecidableEq, Repr

/-- Embeds class `MeasurementSet` (measurement.py line 56): an ordered list of
measurements. -/
structure MeasurementSet where
  measurements : List Measurement
deriving DecidableEq, Repr

/-- Embeds `MeasurementSet.create_measurement` (lines 60-64): appends a fresh
`Measurement` with zeroed mutable fields. -/
def create_measurement (s : MeasurementSet) (element : Element)
    (element_type : ElemType) (meas_type : MeasType)
    (meas_value_ideal unc : ℚ) : MeasurementSet :=
  ⟨s.measurements ++
    [{ element := element, element_type := element_type, meas_type := meas_type,
       meas_value_ideal := meas_value_ideal, unc := unc }]⟩

/-- Body of the scan loop of `MeasurementSet.update_measurement`
(lines 72-116), applied to one stored measurement.  The guards, including the
duplicated `Sinj_imag` test on line 101 and the absence of `Sinj_real`,
`S2_real`, `S2_imag` from that guard, are kept exactly as in the source. -/
def update_one (element_uuid : String) (meas_type : MeasType) (meas_data : ℚ)
    (value_in_pu : Bool) (sqrt3 : ℚ) (m : Measurement) : Measurement :=
  if m.element.uuid = element_uuid then
    if meas_type = .Vpmu_mag ∧ (m.meas_type = .Vpmu_mag ∨ m.meas_type = .V_mag) then
      if ¬ value_in_pu then
        { m with meas_value := meas_data / (m.element.baseVoltage / sqrt3),
                 meas_value_act := meas_data }
      else
        { m with meas_value := meas_data,
                 meas_value_act := meas_data * (m.element.baseVoltage / sqrt3) }
    else if meas_type = .Ipmu_mag ∧
        (m.meas_type = .Ipmu_mag ∨ m.meas_type = .I_mag ∨ m.meas_type = .Ipmu_inj_mag) then
      if ¬ value_in_pu then
        { m with meas_value := meas_data / m.element.base_current,
                 meas_value_act := meas_data }
      else
        { m with meas_value := meas_data,
                 meas_value_act := meas_data * m.element.base_current }
    else if meas_type = m.meas_type ∧
        (meas_type = .S1_real ∨ meas_type = .S1_imag ∨
         meas_type = .Sinj_imag ∨ meas_type = .Sinj_imag) then
      if ¬ value_in_pu then
        { m with meas_value := meas_data / (m.element.base_apparent_power / 3),
                 meas_value_act := meas_data }
      else
        { m with meas_value := meas_data,
                 meas_value_act := meas_data * (m.element.base_apparent_power / 3) }
    else if meas_type = m.meas_type ∧
        (meas_type = .Vpmu_phase ∨ meas_type = .Ipmu_phase ∨ meas_type = .Ipmu_inj_phase) then
      { m with meas_value := meas_data, meas_value_act := meas_data }
    else m
  else m

/-- Embeds `MeasurementSet.update_measurement` (lines 66-116): scans all
stored measurements and rewrites the ones the guards match. -/
def update_measurement (s : MeasurementSet) (element_uuid : String)
    (meas_type : MeasType) (meas_data : ℚ) (value_in_pu : Bool)
    (sqrt3 : ℚ) : MeasurementSet :=
  ⟨s.measurements.map (update_one element_uuid meas_type meas_data value_in_pu sqrt3)⟩

/-- The phase type list `[Ipmu_phase, Vpmu_phase, Ipmu_inj_phase]` the noise
branches test membership in (lines 234, 238, 246, 250, 258, 260). -/
def phaseList : List MeasType := [.Ipmu_phase, .Vpmu_phase, .Ipmu_inj_phase]

/-- Location-scale form of a numpy normal draw: `np.random.normal(loc, scale)`
is `loc + scale * z` for a standard-normal sample `z`.  The source calls it
with `loc = 0` and `scale = 0` (line 232). -/
def normalDraw (loc scale z : ℚ) : ℚ := loc + scale * z

/-- Body of the simulation/normal loop of `meas_creation` (lines 233-241),
applied to one measurement with its error sample `e`. -/
def simNormalUpdate (e : ℚ) (m : Measurement) : Measurement :=
  if m.meas_type ∉ phaseList then
    let zdev_ideal := |m.meas_value_ideal * m.unc| / 300
    let v := m.meas_value_ideal + zdev_ideal * e
    { m with meas_value := v, std_dev := |v * m.unc| / 300 }
  else
    let zdev_ideal := m.unc / 3
    { m with meas_value := m.meas_value_ideal + zdev_ideal * e, std_dev := zdev_ideal }

/-- Body of the simulation/uniform loop of `meas_creation` (lines 245-253),
applied to one measurement with its uniform sample `e`. -/
def simUniformUpdate (e : ℚ) (m : Measurement) : Measurement :=
  if m.meas_type ∉ phaseList then
    let zdev_ideal := |m.meas_value_ideal * m.unc| / 300
    let v := m.meas_value_ideal + 3 * zdev_ideal * e
    { m with meas_value := v, std_dev := |v * m.unc| / 300 }
  else
    let zdev_ideal := m.unc / 3
    { m with meas_value := m.meas_value_ideal + 3 * zdev_ideal * e, std_dev := zdev_ideal }

/-- Body of the field-mode loop of `meas_creation` (lines 256-261): the value
becomes the ideal value and the standard deviation is derived from it. -/
def fieldUpdate (m : Measurement) : Measurement :=
  let m' := { m with meas_value := m.meas_value_ideal }
  if m'.meas_type ∉ phaseList then
    { m' with std_dev := |m'.meas_value * m'.unc| / 300 }
  else
    { m' with std_dev := m'.unc / 3 }

/-- Index-carrying traversal mirroring `for index, measurement in
enumerate(self.measurements)`. -/
def noisePass (f : Nat → Measurement → Measurement) :
    Nat → List Measurement → List Measurement
  | _, [] => []
  | i, m :: rest => f i m :: noisePass f (i + 1) rest

/-- Quantity family list `type_volt` (line 264). -/
def type_volt : List MeasType := [.Vpmu_mag, .V_mag]

/-- Quantity family list `type_curr` (line 265). -/
def type_curr : List MeasType := [.Ipmu_mag, .I_mag, .Ipmu_inj_mag]

/-- Quantity family list `type_power` (line 266). -/
def type_power : List MeasType :=
  [.S1_imag, .S1_real, .S2_imag, .S2_real, .Sinj_imag, .Sinj_real]

/-- Quantity family list `type_phase` (line 267). -/
def type_phase : List MeasType := [.Vpmu_phase, .Ipmu_phase, .Ipmu_inj_phase]

/-- Body of the converting-to-actuals loop of `meas_creation` (lines 268-280):
writes `meas_value_act`/`std_dev_act` from `meas_value`/`std_dev` using the
per-family base factor. -/
def toActuals (sqrt3 : ℚ) (m : Measurement) : Measurement :=
  if m.meas_type ∈ type_volt then
    { m with meas_value_act := m.meas_value * (m.element.baseVoltage / sqrt3),
             std_dev_act := m.std_dev * (m.element.baseVoltage / sqrt3) }
  else if m.meas_type ∈ type_curr then
    { m with meas_value_act := m.meas_value * m.element.base_current,
             std_dev_act := m.std_dev * m.element.base_current }
  else if m.meas_type ∈ type_power then
    { m with meas_value_act := m.meas_value * (m.element.base_apparent_power / 3),
             std_dev_act := m.std_dev * (m.element.base_apparent_power / 3) }
  else if m.meas_type ∈ type_phase then
    { m with meas_value_act := m.meas_value, std_dev_act := m.std_dev }
  else m

/-- Distribution selector of `meas_creation` (`dist` parameter). -/
inductive Dist where
  | normal
  | uniform
deriving DecidableEq, Repr

/-- Mode selector of `meas_creation` (`type` parameter). -/
inductive RunMode where
  | simulation
  | field
deriving DecidableEq, Repr

/-- Embeds `MeasurementSet.meas_creation` (lines 219-280).  In the
simulation/normal branch the error vector is `np.random.normal(0, 0, n)`,
i.e. the sample stream `z` pushed through `normalDraw 0 0`; in the
simulation/uniform branch it is the raw stream `z` (a uniform draw on
`[-1, 1)`).  After the noise pass, every measurement is converted to actual
units. -/
def meas_creation (dist : Dist) (mode : RunMode) (z : Nat → ℚ) (sqrt3 : ℚ)
    (s : MeasurementSet) : MeasurementSet :=
  let noisy : List Measurement :=
    match mode with
    | .simulation =>
      match dist with
      | .normal => noisePass (fun i m => simNormalUpdate (normalDraw 0 0 (z i)) m) 0 s.measurements
      | .uniform => noisePass (fun i m => simUniformUpdate (z i) m) 0 s.measurements
    | .field => s.measurements.map fieldUpdate
  ⟨noisy.map (toActuals sqrt3)⟩

/-- Embeds `MeasurementSet.getMeasurementsOfType` (lines 297-306). -/
def getMeasurementsOfType (s : MeasurementSet) (t : MeasType) : List Measurement :=
  s.measurements.filter (fun m => decide (m.meas_type = t))

/-- Embeds `MeasurementSet.getNumberOfMeasurements` (lines 308-317). -/
def getNumberOfMeasurements (s : MeasurementSet) (t : MeasType) : Nat :=
  s.measurements.countP (fun m => decide (m.meas_type = t))

/-- Index-collecting loop of `getIndexOfMeasurements`, carrying the running
position. -/
def idxOfType (t : MeasType) : Nat → List Measurement → List Nat
  | _, [] => []
  | i, m :: rest =>
    if m.meas_type = t then i :: idxOfType t (i + 1) rest
    else idxOfType t (i + 1) rest

/-- Embeds `MeasurementSet.getIndexOfMeasurements` (lines 319-330): positions
of all measurements of type `t`, in set order. -/
def getIndexOfMeasurements (s : MeasurementSet) (t : MeasType) : List Nat :=
  idxOfType t 0 s.measurements

/-- The in-place floor of lines 339-340 (and 365-366): a stored `std_dev`
below `10 ** (-6)` is overwritten with `10 ** (-6)`. -/
def floorStd (m : Measurement) : Measurement :=
  if m.std_dev < (10 : ℚ) ^ (-6 : ℤ) then { m with std_dev := (10 : ℚ) ^ (-6 : ℤ) } else m

/-- The in-place floor of lines 352-353 (and 378-379) on `std_dev_act`. -/
def floorStdAct (m : Measurement) : Measurement :=
  if m.std_dev_act < (10 : ℚ) ^ (-6 : ℤ) then { m with std_dev_act := (10 : ℚ) ^ (-6 : ℤ) } else m

/-- Embeds `MeasurementSet.getWeightsMatrix` (lines 332-343).  The source
mutates each `measurement.std_dev` in place before reading it, so the
embedding returns the weights vector together with the post-call set. -/
def getWeightsMatrix (s : MeasurementSet) : List ℚ × MeasurementSet :=
  (s.measurements.map (fun m => (floorStd m).std_dev ^ (-2 : ℤ)),
   ⟨s.measurements.map floorStd⟩)

/-- Embeds `MeasurementSet.getWeightsMatrixActuals` (lines 345-356). -/
def getWeightsMatrixActuals (s : MeasurementSet) : List ℚ × MeasurementSet :=
  (s.measurements.map (fun m => (floorStdAct m).std_dev_act ^ (-2 : ℤ)),
   ⟨s.measurements.map floorStdAct⟩)

/-- Embeds `MeasurementSet.getCovarianceMatrix` (lines 358-369), with the same
in-place floor as the weights. -/
def getCovarianceMatrix (s : MeasurementSet) : List ℚ × MeasurementSet :=
  (s.measurements.map (fun m => (floorStd m).std_dev ^ (2 : ℕ)),
   ⟨s.measurements.map floorStd⟩)

/-- Embeds `MeasurementSet.getCovarianceMatrixActuals` (lines 371-382). -/
def getCovarianceMatrixActuals (s : MeasurementSet) : List ℚ × MeasurementSet :=
  (s.measurements.map (fun m => (floorStdAct m).std_dev_act ^ (2 : ℕ)),
   ⟨s.measurements.map floorStdAct⟩)

/-- One rewrite loop of `getMeasValues` (lines 397-401, 408-412, 419-423):
walk the zipped (magnitude index, phase index) pairs; read amplitude and angle
from the original stored values `orig`; overwrite the two slots of the output
vector with the rectangular decomposition. -/
def writePairs (c s' : ℚ → ℚ) (orig : List ℚ) :
    List (Nat × Nat) → List ℚ → List ℚ
  | [], acc => acc
  | (i, j) :: rest, acc =>
    writePairs c s' orig rest
      ((acc.set i (orig.getD i 0 * c (orig.getD j 0))).set j
        (orig.getD i 0 * s' (orig.getD j 0)))

/-- Phasor family selector for the three rewrite passes of `getMeasValues`. -/
inductive Fam where
  | volt
  | curr
  | inj
deriving DecidableEq, Repr

/-- Magnitude quantity of each phasor family. -/
def famMag : Fam → MeasType
  | .volt => .Vpmu_mag
  | .curr => .Ipmu_mag
  | .inj => .Ipmu_inj_mag

/-- Phase quantity of each phasor family. -/
def famPhase : Fam → MeasType
  | .volt => .Vpmu_phase
  | .curr => .Ipmu_phase
  | .inj => .Ipmu_inj_phase

/-- The zipped (magnitude index, phase index) pairs of one phasor family, as
built by `zip(..._mag_idx, ..._phase_idx)` in `getMeasValues`. -/
def famPairs (s : MeasurementSet) (f : Fam) : List (Nat × Nat) :=
  (getIndexOfMeasurements s (famMag f)).zip (getIndexOfMeasurements s (famPhase f))

/-- Common core of `getMeasValues` (lines 384-425) and `getMeasValuesActuals`
(lines 427-468), which differ only in the field read (`meas_value` resp.
`meas_value_act`): fill the vector with the chosen field in set order, then
run the three family rewrite passes (voltage, current, current injection). -/
def measVectorBy (c s' : ℚ → ℚ) (val : Measurement → ℚ)
    (s : MeasurementSet) : List ℚ :=
  writePairs c s' (s.measurements.map val) (famPairs s .inj)
    (writePairs c s' (s.measurements.map val) (famPairs s .curr)
      (writePairs c s' (s.measurements.map val) (famPairs s .volt)
        (s.measurements.map val)))

/-- Embeds `MeasurementSet.getMeasValues` (lines 384-425); `c` and `s'` stand
for `np.cos` and `np.sin`. -/
def getMeasValues (c s' : ℚ → ℚ) (s : MeasurementSet) : List ℚ :=
  measVectorBy c s' (fun m => m.meas_value) s

/-- Embeds `MeasurementSet.getMeasValuesActuals` (lines 427-468). -/
def getMeasValuesActuals (c s' : ℚ → ℚ) (s : MeasurementSet) : List ℚ :=
  measVectorBy c s' (fun m => m.meas_value_act) s

/-- The canonical estimator order of `getSortedMeasurementSet` (lines
479-480). -/
def sortOrder : List MeasType :=
  [.V_mag, .Sinj_real, .Sinj_imag, .S1_real, .S1_imag, .S2_real, .S2_imag,
   .I_mag, .Vpmu_mag, .Vpmu_phase, .Ipmu_mag, .Ipmu_phase, .Ipmu_inj_mag,
   .Ipmu_inj_phase]

/-- Embeds `MeasurementSet.getSortedMeasurementSet` (lines 470-482):
concatenates, for each type in canonical order, the measurements of that type
in set order. -/
def getSortedMeasurementSet (s : MeasurementSet) : MeasurementSet :=
  ⟨sortOrder.foldl (fun acc t => acc ++ getMeasurementsOfType s t) []⟩

/-- Embeds the static method `MeasurementSet.mergeMeasurementSets`
(lines 533-537). -/
def mergeMeasurementSets (s1 s2 : MeasurementSet) : MeasurementSet :=
  ⟨s1.measurements ++ s2.measurements⟩

/-- The Actual→PU column of the unit-conversion table, as the live-update path
divides (lines 79, 92, 105) and as phase values pass through unchanged
(line 115). -/
def actualToPu (sqrt3 : ℚ) (m : Measurement) (v : ℚ) : ℚ :=
  if m.meas_type ∈ type_volt then v / (m.element.baseVoltage / sqrt3)
  else if m.meas_type ∈ type_curr then v / m.element.base_current
  else if m.meas_type ∈ type_power then v / (m.element.base_apparent_power / 3)
  else v

/-- The guard of `update_measurement` under which a stored measurement is
rewritten (disjunction of the four cases of lines 75, 88, 101, 113). -/
def updateMatches (element_uuid : String) (meas_type : MeasType)
    (m : Measurement) : Prop :=
  m.element.uuid = element_uuid ∧
  ((meas_type = .Vpmu_mag ∧ (m.meas_type = .Vpmu_mag ∨ m.meas_type = .V_mag)) ∨
   (meas_type = .Ipmu_mag ∧
     (m.meas_type = .Ipmu_mag ∨ m.meas_type = .I_mag ∨ m.meas_type = .Ipmu_inj_mag)) ∨
   (meas_type = m.meas_type ∧
     (meas_type = .S1_real ∨ meas_type = .S1_imag ∨ meas_type = .Sinj_imag)) ∨
   (meas_type = m.meas_type ∧
     (meas_type = .Vpmu_phase ∨ meas_type = .Ipmu_phase ∨ meas_type = .Ipmu_inj_phase)))

instance (element_uuid : String) (meas_type : MeasType) (m : Measurement) :
    Decidable (updateMatches element_uuid meas_type m) := by
  unfold updateMatches
  infer_instance

/-! ### Helper lemmas on `List.set`, `List.getD`, `List.zip` -/

theorem getD_set_self {α : Type} {l : List α} {i : Nat} {x d : α}
    (h : i < l.length) : (l.set i x).getD i d = x := by
  simp [List.getD_eq_getElem?_getD, List.getElem?_set, h]

theorem getD_set_ne {α : Type} {l : List α} {i j : Nat} {x d : α}
    (h : i ≠ j) : (l.set i x).getD j d = l.getD j d := by
  simp [List.getD_eq_getElem?_getD, List.getElem?_set, h]

theorem map_fst_zip_eq_take {α β : Type} :
    ∀ (a : List α) (b : List β), (a.zip b).map Prod.fst = a.take b.length
  | [], _ => by simp
  | _ :: _, [] => by simp
  | x :: xs, y :: ys => by simp [map_fst_zip_eq_take xs ys]

theorem map_snd_zip_eq_take {α β : Type} :
    ∀ (a : List α) (b : List β), (a.zip b).map Prod.snd = b.take a.length
  | [], _ => by simp
  | _ :: _, [] => by simp
  | x :: xs, y :: ys => by simp [map_snd_zip_eq_take xs ys]

/-! ### Properties of `idxOfType` / `getIndexOfMeasurements` -/

theorem idxOfType_mem_ge {t : MeasType} {l : List Measurement} {i j : Nat}
    (h : j ∈ idxOfType t i l) : i ≤ j := by
  induction l generalizing i with
  | nil => simp [idxOfType] at h
  | cons m rest ih =>
    by_cases hm : m.meas_type = t
    · rw [idxOfType, if_pos hm] at h
      rcases List.mem_cons.mp h with rfl | h'
      · exact Nat.le_refl _
      · exact Nat.le_of_succ_le (ih h')
    · rw [idxOfType, if_neg hm] at h
      exact Nat.le_of_succ_le (ih h)

theorem idxOfType_mem_lt {t : MeasType} {l : List Measurement} {i j : Nat}
    (h : j ∈ idxOfType t i l) : j < i + l.length := by
  induction l generalizing i with
  | nil => simp [idxOfType] at h
  | cons m rest ih =>
    by_cases hm : m.meas_type = t
    · rw [idxOfType, if_pos hm] at h
      rcases List.mem_cons.mp h with rfl | h'
      · simp
      · have := ih h'
        simp only [List.length_cons]
        omega
    · rw [idxOfType, if_neg hm] at h
      have := ih h
      simp only [List.length_cons]
      omega

theorem idxOfType_mem_type {t : MeasType} {l : List Measurement} {i j : Nat}
    (h : j ∈ idxOfType t i l) :
    ∃ m : Measurement, l[j - i]? = some m ∧ m.meas_type = t := by
  induction l generalizing i with
  | nil => simp [idxOfType] at h
  | cons m rest ih =>
    by_cases hm : m.meas_type = t
    · rw [idxOfType, if_pos hm] at h
      rcases List.mem_cons.mp h with rfl | h'
      · exact ⟨m, by simp, hm⟩
      · rcases ih h' with ⟨m', hm', ht⟩
        refine ⟨m', ?_, ht⟩
        have hge : i + 1 ≤ j := idxOfType_mem_ge h'
        have : j - i = (j - (i + 1)) + 1 := by omega
        rw [this, List.getElem?_cons_succ]
        exact hm'
    · rw [idxOfType, if_neg hm] at h
      rcases ih h with ⟨m', hm', ht⟩
      refine ⟨m', ?_, ht⟩
      have hge : i + 1 ≤ j := idxOfType_mem_ge h
      have : j - i = (j - (i + 1)) + 1 := by omega
      rw [this, List.getElem?_cons_succ]
      exact hm'

theorem idxOfType_pairwise (t : MeasType) (l : List Measurement) (i : Nat) :
    (idxOfType t i l).Pairwise (· < ·) := by
  induction l generalizing i with
  | nil => simp [idxOfType]
  | cons m rest ih =>
    by_cases hm : m.meas_type = t
    · rw [idxOfType, if_pos hm]
      refine List.pairwise_cons.mpr ⟨fun x hx => ?_, ih (i + 1)⟩
      exact Nat.lt_of_succ_le (idxOfType_mem_ge hx)
    · rw [idxOfType, if_neg hm]
      exact ih (i + 1)

theorem getIndex_nodup (s : MeasurementSet) (t : MeasType) :
    (getIndexOfMeasurements s t).Nodup :=
  (idxOfType_pairwise t s.measurements 0).imp Nat.ne_of_lt

theorem mem_getIndex_lt {s : MeasurementSet} {t : MeasType} {j : Nat}
    (h : j ∈ getIndexOfMeasurements s t) : j < s.measurements.length := by
  have := idxOfType_mem_lt h
  omega

theorem idx_types_disjoint {s : MeasurementSet} {t t' : MeasType} {j : Nat}
    (hne : t ≠ t') (h : j ∈ getIndexOfMeasurements s t)
    (h' : j ∈ getIndexOfMeasurements s t') : False := by
  rcases idxOfType_mem_type h with ⟨m, hm, ht⟩
  rcases idxOfType_mem_type h' with ⟨m', hm', ht'⟩
  rw [Nat.sub_zero] at hm hm'
  rw [hm] at hm'
  cases hm'
  exact hne (ht ▸ ht' ▸ rfl)

/-! ### Properties of `famPairs` -/

theorem famPairs_length (s : MeasurementSet) (f : Fam) :
    (famPairs s f).length =
      min (getIndexOfMeasurements s (famMag f)).length
        (getIndexOfMeasurements s (famPhase f)).length :=
  List.length_zip _ _

theorem famPairs_getD {s : MeasurementSet} {f : Fam} {k : Nat}
    (hk : k < (famPairs s f).length) :
    (famPairs s f).getD k (0, 0) =
      ((getIndexOfMeasurements s (famMag f)).getD k 0,
       (getIndexOfMeasurements s (famPhase f)).getD k 0) := by
  have hk' := hk
  rw [famPairs_length] at hk'
  have h1 : k < (getIndexOfMeasurements s (famMag f)).length := lt_of_lt_of_le hk' (min_le_left _ _)
  have h2 : k < (getIndexOfMeasurements s (famPhase f)).length := lt_of_lt_of_le hk' (min_le_right _ _)
  calc (famPairs s f).getD k (0, 0)
      = (famPairs s f)[k] := List.getD_eq_getElem _ _ hk
    _ = ((getIndexOfMeasurements s (famMag f))[k],
         (getIndexOfMeasurements s (famPhase f))[k]) := List.getElem_zip
    _ = ((getIndexOfMeasurements s (famMag f)).getD k 0,
         (getIndexOfMeasurements s (famPhase f)).getD k 0) := by
        rw [List.getD_eq_getElem _ _ h1, List.getD_eq_getElem _ _ h2]

theorem famPairs_getD_mem {s : MeasurementSet} {f : Fam} {k : Nat}
    (hk : k < (famPairs s f).length) :
    (famPairs s f).getD k (0, 0) ∈ famPairs s f := by
  rw [List.getD_eq_getElem _ _ hk]
  exact List.getElem_mem hk

theorem famPairs_fst_mem {s : MeasurementSet} {f : Fam} {x : Nat}
    (h : x ∈ (famPairs s f).map Prod.fst) :
    x ∈ getIndexOfMeasurements s (famMag f) := by
  rcases List.mem_map.mp h with ⟨⟨a, b⟩, hab, rfl⟩
  exact (List.of_mem_zip hab).1

theorem famPairs_snd_mem {s : MeasurementSet} {f : Fam} {x : Nat}
    (h : x ∈ (famPairs s f).map Prod.snd) :
    x ∈ getIndexOfMeasurements s (famPhase f) := by
  rcases List.mem_map.mp h with ⟨⟨a, b⟩, hab, rfl⟩
  exact (List.of_mem_zip hab).2

theorem famPairs_fst_nodup (s : MeasurementSet) (f : Fam) :
    ((famPairs s f).map Prod.fst).Nodup := by
  rw [famPairs, map_fst_zip_eq_take]
  exact (List.take_sublist _ _).nodup (getIndex_nodup s (famMag f))

theorem famPairs_snd_nodup (s : MeasurementSet) (f : Fam) :
    ((famPairs s f).map Prod.snd).Nodup := by
  rw [famPairs, map_snd_zip_eq_take]
  exact (List.take_sublist _ _).nodup (getIndex_nodup s (famPhase f))

theorem famMag_ne_famPhase (f : Fam) : famMag f ≠ famPhase f := by
  cases f <;> simp [famMag, famPhase]

theorem famPairs_disj (s : MeasurementSet) (f : Fam) :
    ∀ x ∈ (famPairs s f).map Prod.fst, x ∉ (famPairs s f).map Prod.snd := by
  intro x hf hs
  exact idx_types_disjoint (famMag_ne_famPhase f) (famPairs_fst_mem hf) (famPairs_snd_mem hs)

theorem not_mem_famPairs_of_type {s : MeasurementSet} {x : Nat} {t : MeasType}
    (hx : x ∈ getIndexOfMeasurements s t) (f : Fam)
    (h1 : t ≠ famMag f) (h2 : t ≠ famPhase f) :
    x ∉ (famPairs s f).map Prod.fst ∧ x ∉ (famPairs s f).map Prod.snd := by
  constructor
  · intro hmem
    exact idx_types_disjoint h1 hx (famPairs_fst_mem hmem)
  · intro hmem
    exact idx_types_disjoint h2 hx (famPairs_snd_mem hmem)

/-! ### Properties of `writePairs` and `measVectorBy` -/

theorem writePairs_length (c s' : ℚ → ℚ) (orig : List ℚ) :
    ∀ (ps : List (Nat × Nat)) (acc : List ℚ),
      (writePairs c s' orig ps acc).length = acc.length
  | [], _ => rfl
  | (i, j) :: rest, acc => by
    rw [writePairs, writePairs_length c s' orig rest]
    simp

theorem writePairs_getD_not_mem {c s' : ℚ → ℚ} {orig : List ℚ} {i : Nat} (d : ℚ) :
    ∀ {ps : List (Nat × Nat)} (acc : List ℚ),
      i ∉ ps.map Prod.fst → i ∉ ps.map Prod.snd →
      (writePairs c s' orig ps acc).getD i d = acc.getD i d
  | [], _, _, _ => rfl
  | (a, b) :: rest, acc, hif, his => by
    have ha : a ≠ i := fun h => hif (by simp [h])
    have hb : b ≠ i := fun h => his (by simp [h])
    have hif' : i ∉ rest.map Prod.fst := fun h => hif (by simp [h])
    have his' : i ∉ rest.map Prod.snd := fun h => his (by simp [h])
    rw [writePairs, writePairs_getD_not_mem d _ hif' his', getD_set_ne hb, getD_set_ne ha]

theorem writePairs_getD_fst {c s' : ℚ → ℚ} {orig : List ℚ} {i j : Nat} :
    ∀ {ps : List (Nat × Nat)} (acc : List ℚ),
      (i, j) ∈ ps → (ps.map Prod.fst).Nodup →
      (∀ x ∈ ps.map Prod.fst, x ∉ ps.map Prod.snd) → i < acc.length →
      (writePairs c s' orig ps acc).getD i 0 = orig.getD i 0 * c (orig.getD j 0)
  | [], _, hmem, _, _, _ => by simp at hmem
  | (a, b) :: rest, acc, hmem, hf, hdisj, hi => by
    rcases List.mem_cons.mp hmem with heq | htail
    · have ha : a = i := (congrArg Prod.fst heq).symm
      have hb : b = j := (congrArg Prod.snd heq).symm
      subst ha; subst hb
      have hifst : a ∉ rest.map Prod.fst := (List.nodup_cons.mp hf).1
      have hnsnd : a ∉ ((a, b) :: rest).map Prod.snd := hdisj a (by simp)
      have hab : b ≠ a := fun h => hnsnd (by simp [h])
      have hisnd : a ∉ rest.map Prod.snd := fun h => hnsnd (by simp [h])
      rw [writePairs, writePairs_getD_not_mem 0 _ hifst hisnd, getD_set_ne hab,
        getD_set_self hi]
    · have hf' : (rest.map Prod.fst).Nodup := (List.nodup_cons.mp hf).2
      have hdisj' : ∀ x ∈ rest.map Prod.fst, x ∉ rest.map Prod.snd := by
        intro x hx hx'
        exact hdisj x (by simp [hx]) (by simp [hx'])
      have hi' : i < ((acc.set a (orig.getD a 0 * c (orig.getD b 0))).set b
          (orig.getD a 0 * s' (orig.getD b 0))).length := by simpa using hi
      rw [writePairs]
      exact writePairs_getD_fst _ htail hf' hdisj' hi'

theorem writePairs_getD_snd {c s' : ℚ → ℚ} {orig : List ℚ} {i j : Nat} :
    ∀ {ps : List (Nat × Nat)} (acc : List ℚ),
      (i, j) ∈ ps → (ps.map Prod.snd).Nodup →
      (∀ x ∈ ps.map Prod.fst, x ∉ ps.map Prod.snd) → j < acc.length →
      (writePairs c s' orig ps acc).getD j 0 = orig.getD i 0 * s' (orig.getD j 0)
  | [], _, hmem, _, _, _ => by simp at hmem
  | (a, b) :: rest, acc, hmem, hs, hdisj, hj => by
    rcases List.mem_cons.mp hmem with heq | htail
    · have ha : a = i := (congrArg Prod.fst heq).symm
      have hb : b = j := (congrArg Prod.snd heq).symm
      subst ha; subst hb
      have hjsnd : b ∉ rest.map Prod.snd := (List.nodup_cons.mp hs).1
      have hjfst : b ∉ rest.map Prod.fst := by
        intro h
        have hmf : b ∈ ((a, b) :: rest).map Prod.fst := by simp [h]
        exact hdisj b hmf (by simp)
      have hj' : b < (acc.set a (orig.getD a 0 * c (orig.getD b 0))).length := by
        simpa using hj
      rw [writePairs, writePairs_getD_not_mem 0 _ hjfst hjsnd, getD_set_self hj']
    · have hs' : (rest.map Prod.snd).Nodup := (List.nodup_cons.mp hs).2
      have hdisj' : ∀ x ∈ rest.map Prod.fst, x ∉ rest.map Prod.snd := by
        intro x hx hx'
        exact hdisj x (by simp [hx]) (by simp [hx'])
      have hj' : j < ((acc.set a (orig.getD a 0 * c (orig.getD b 0))).set b
          (orig.getD a 0 * s' (orig.getD b 0))).length := by simpa using hj
      rw [writePairs]
      exact writePairs_getD_snd _ htail hs' hdisj' hj'

theorem measVectorBy_length (c s' : ℚ → ℚ) (val : Measurement → ℚ)
    (s : MeasurementSet) :
    (measVectorBy c s' val s).length = s.measurements.length := by
  rw [measVectorBy, writePairs_length, writePairs_length, writePairs_length,
    List.length_map]

theorem measVectorBy_getD_not_mem (c s' : ℚ → ℚ) (val : Measurement → ℚ)
    (s : MeasurementSet) {i : Nat} (d : ℚ)
    (h : ∀ f : Fam, i ∉ (famPairs s f).map Prod.fst ∧ i ∉ (famPairs s f).map Prod.snd) :
    (measVectorBy c s' val s).getD i d = (s.measurements.map val).getD i d := by
  rw [measVectorBy, writePairs_getD_not_mem d _ (h .inj).1 (h .inj).2,
    writePairs_getD_not_mem d _ (h .curr).1 (h .curr).2,
    writePairs_getD_not_mem d _ (h .volt).1 (h .volt).2]

theorem measVectorBy_getD_pair (c s' : ℚ → ℚ) (val : Measurement → ℚ)
    (s : MeasurementSet) {f : Fam} {i j : Nat} (hmem : (i, j) ∈ famPairs s f) :
    (measVectorBy c s' val s).getD i 0 =
      (s.measurements.map val).getD i 0 * c ((s.measurements.map val).getD j 0) ∧
    (measVectorBy c s' val s).getD j 0 =
      (s.measurements.map val).getD i 0 * s' ((s.measurements.map val).getD j 0) := by
  have himem : i ∈ getIndexOfMeasurements s (famMag f) :=
    famPairs_fst_mem (List.mem_map.mpr ⟨(i, j), hmem, rfl⟩)
  have hjmem : j ∈ getIndexOfMeasurements s (famPhase f) :=
    famPairs_snd_mem (List.mem_map.mpr ⟨(i, j), hmem, rfl⟩)
  have hi : i < (s.measurements.map val).length := by
    rw [List.length_map]
    exact mem_getIndex_lt himem
  have hj : j < (s.measurements.map val).length := by
    rw [List.length_map]
    exact mem_getIndex_lt hjmem
  cases f with
  | volt =>
    have hic := not_mem_famPairs_of_type himem Fam.curr (by decide) (by decide)
    have hii := not_mem_famPairs_of_type himem Fam.inj (by decide) (by decide)
    have hjc := not_mem_famPairs_of_type hjmem Fam.curr (by decide) (by decide)
    have hji := not_mem_famPairs_of_type hjmem Fam.inj (by decide) (by decide)
    constructor
    · rw [measVectorBy, writePairs_getD_not_mem 0 _ hii.1 hii.2,
        writePairs_getD_not_mem 0 _ hic.1 hic.2]
      exact writePairs_getD_fst _ hmem (famPairs_fst_nodup s .volt)
        (famPairs_disj s .volt) hi
    · rw [measVectorBy, writePairs_getD_not_mem 0 _ hji.1 hji.2,
        writePairs_getD_not_mem 0 _ hjc.1 hjc.2]
      exact writePairs_getD_snd _ hmem (famPairs_snd_nodup s .volt)
        (famPairs_disj s .volt) hj
  | curr =>
    have hii := not_mem_famPairs_of_type himem Fam.inj (by decide) (by decide)
    have hji := not_mem_famPairs_of_type hjmem Fam.inj (by decide) (by decide)
    have hi' : i < (writePairs c s' (s.measurements.map val) (famPairs s .volt)
        (s.measurements.map val)).length := by rwa [writePairs_length]
    have hj' : j < (writePairs c s' (s.measurements.map val) (famPairs s .volt)
        (s.measurements.map val)).length := by rwa [writePairs_length]
    constructor
    · rw [measVectorBy, writePairs_getD_not_mem 0 _ hii.1 hii.2]
      exact writePairs_getD_fst _ hmem (famPairs_fst_nodup s .curr)
        (famPairs_disj s .curr) hi'
    · rw [measVectorBy, writePairs_getD_not_mem 0 _ hji.1 hji.2]
      exact writePairs_getD_snd _ hmem (famPairs_snd_nodup s .curr)
        (famPairs_disj s .curr) hj'
  | inj =>
    have hi' : i < (writePairs c s' (s.measurements.map val) (famPairs s .curr)
        (writePairs c s' (s.measurements.map val) (famPairs s .volt)
          (s.measurements.map val))).length := by
      rwa [writePairs_length, writePairs_length]
    have hj' : j < (writePairs c s' (s.measurements.map val) (famPairs s .curr)
        (writePairs c s' (s.measurements.map val) (famPairs s .volt)
          (s.measurements.map val))).length := by
      rwa [writePairs_length, writePairs_length]
    constructor
    · rw [measVectorBy]
      exact writePairs_getD_fst _ hmem (famPairs_fst_nodup s .inj)
        (famPairs_disj s .inj) hi'
    · rw [measVectorBy]
      exact writePairs_getD_snd _ hmem (famPairs_snd_nodup s .inj)
        (famPairs_disj s .inj) hj'

/-! ### Helper lemmas on the noise model -/

theorem toActuals_meas_value (sqrt3 : ℚ) (m : Measurement) :
    (toActuals sqrt3 m).meas_value = m.meas_value := by
  unfold toActuals
  split_ifs <;> rfl

theorem toActuals_std_dev (sqrt3 : ℚ) (m : Measurement) :
    (toActuals sqrt3 m).std_dev = m.std_dev := by
  unfold toActuals
  split_ifs <;> rfl

theorem toActuals_meas_type (sqrt3 : ℚ) (m : Measurement) :
    (toActuals sqrt3 m).meas_type = m.meas_type := by
  unfold toActuals
  split_ifs <;> rfl

theorem noisePass_map_mem {α : Type} (f : Nat → Measurement → Measurement)
    (g : Measurement → α) (h : Measurement → α) :
    ∀ (start : Nat) (l : List Measurement),
      (∀ m ∈ l, ∀ i, g (f i m) = h m) →
      (noisePass f start l).map g = l.map h
  | _, [], _ => rfl
  | start, m :: rest, hp => by
    rw [noisePass, List.map_cons, List.map_cons, hp m (by simp) start,
      noisePass_map_mem f g h (start + 1) rest (fun m' hm' => hp m' (by simp [hm']))]

theorem simNormalUpdate_degenerate_value (e : ℚ) (m : Measurement) :
    (simNormalUpdate (normalDraw 0 0 e) m).meas_value = m.meas_value_ideal := by
  unfold simNormalUpdate normalDraw
  split_ifs <;> simp

/-! ### Helper lemmas on sorting -/

theorem foldl_append_eq_flatten {α β : Type} (g : β → List α) :
    ∀ (ts : List β) (init : List α),
      ts.foldl (fun acc t => acc ++ g t) init = init ++ (ts.map g).flatten
  | [], init => by simp
  | t :: ts, init => by
    rw [List.foldl_cons, foldl_append_eq_flatten g ts, List.map_cons,
      List.flatten_cons, List.append_assoc]

theorem sorted_measurements (s : MeasurementSet) :
    (getSortedMeasurementSet s).measurements =
      (sortOrder.map (fun t => getMeasurementsOfType s t)).flatten := by
  rw [getSortedMeasurementSet, foldl_append_eq_flatten, List.nil_append]

theorem getMeasurementsOfType_sorted (s : MeasurementSet) (t : MeasType) :
    getMeasurementsOfType (getSortedMeasurementSet s) t = getMeasurementsOfType s t := by
  rw [getMeasurementsOfType, sorted_measurements, List.filter_flatten, List.map_map]
  have hone : ∀ t' ∈ sortOrder,
      ((fun l => List.filter (fun m => decide (m.meas_type = t)) l) ∘
        fun t' => getMeasurementsOfType s t') t' =
      (fun t' => if t' = t then getMeasurementsOfType s t else []) t' := by
    intro t' _
    simp only [Function.comp]
    rw [getMeasurementsOfType, List.filter_filter]
    by_cases h : t' = t
    · subst h
      rw [if_pos rfl, getMeasurementsOfType]
      apply List.filter_congr
      intro m _
      simp
    · rw [if_neg h]
      apply List.filter_eq_nil_iff.mpr
      intro m _
      simp only [Bool.and_eq_true, decide_eq_true_eq]
      rintro ⟨h1, h2⟩
      exact h (h2 ▸ h1)
  rw [List.map_congr_left hone]
  cases t <;> simp [sortOrder]

theorem sorted_length (s : MeasurementSet) :
    (getSortedMeasurementSet s).measurements.length = s.measurements.length := by
  rw [sorted_measurements, List.length_flatten, List.map_map]
  show ((sortOrder.map fun t =>
    (s.measurements.filter (fun m => decide (m.meas_type = t))).length)).sum =
    s.measurements.length
  induction s.measurements with
  | nil => simp [sortOrder]
  | cons m rest ih =>
    simp only [sortOrder, List.map_cons, List.map_nil, List.sum_cons,
      List.sum_nil] at ih
    cases hm : m.meas_type <;>
      simp [sortOrder, List.filter_cons, hm] <;> omega

theorem measSet_eq_of_measurements {A B : MeasurementSet}
    (h : A.measurements = B.measurements) : A = B := by
  cases A
  cases B
  simpa using h

theorem zpow_neg_two_eq (x : ℚ) : x ^ (-2 : ℤ) = (x ^ (2 : ℕ))⁻¹ := by
  rw [show (-2 : ℤ) = -((2 : ℕ) : ℤ) by norm_num, zpow_neg, zpow_natCast]

theorem simNormalUpdate_zero_unc (e : ℚ) (m : Measurement) (h : m.unc = 0) :
    (simNormalUpdate e m).meas_value = m.meas_value_ideal ∧
    (simNormalUpdate e m).std_dev = 0 := by
  unfold simNormalUpdate
  split_ifs <;> simp [h]

theorem simUniformUpdate_zero_unc (e : ℚ) (m : Measurement) (h : m.unc = 0) :
    (simUniformUpdate e m).meas_value = m.meas_value_ideal ∧
    (simUniformUpdate e m).std_dev = 0 := by
  unfold simUniformUpdate
  split_ifs <;> simp [h]

/-! ### Concrete fixtures used by scenario theorems and witnesses -/

/-- A node element with unit base quantities, for concrete runs. -/
def nodeElem : Element := ⟨"N1", 1, 1, 1⟩

/-- A node element carrying a power-injection measurement of type
`Sinj_real`, already holding a nonzero stored value. -/
def sinjSet : MeasurementSet :=
  ⟨[⟨nodeElem, .Node, .Sinj_real, 1, 1, 0, 0, 0, 0⟩]⟩

/-- A set holding one `V_mag` measurement whose `std_dev` is zero (below the
`1e-6` floor). -/
def zeroStdSet : MeasurementSet :=
  ⟨[⟨nodeElem, .Node, .V_mag, 1, 1, 0, 0, 0, 0⟩]⟩

/-- The phasor-voltage scenario of the spec: one `Vpmu_mag` measurement with
ideal value `1.02` and one `Vpmu_phase` measurement with ideal value `-0.05`
on the same node, both with `unc = 1`. -/
def pmuScenarioSet : MeasurementSet :=
  create_measurement
    (create_measurement ⟨[]⟩ nodeElem .Node .Vpmu_mag (51/50) 1)
    nodeElem .Node .Vpmu_phase (-(1/20)) 1

/-- A measurement with nonzero stored value, used by the round-trip witness. -/
def rtMeas : Measurement := ⟨nodeElem, .Node, .V_mag, 1, 1, 0, 0, 3/2, 0⟩

/-! ### Claims -/

/-- C2: the claim says normal-mode noise injection perturbs each non-phase
measurement by `spread` times a standard-normal sample with standard
deviation 1, so that some seed makes `meas_value` differ from
`meas_value_ideal`.  The code instead draws `np.random.normal(0, 0, n)` —
scale zero — so every sample is `0 + 0 * z = 0` and, for every sample stream
(hence every seed) and every measurement, `meas_value` comes out exactly
equal to `meas_value_ideal`. -/
theorem C2_normal_noise_never_perturbs (z : Nat → ℚ) (sqrt3 : ℚ)
    (s : MeasurementSet) :
    (meas_creation .normal .simulation z sqrt3 s).measurements.map
        Measurement.meas_value =
      s.measurements.map Measurement.meas_value_ideal := by
  show ((noisePass (fun i m => simNormalUpdate (normalDraw 0 0 (z i)) m) 0
      s.measurements).map (toActuals sqrt3)).map Measurement.meas_value = _
  rw [List.map_map]
  exact noisePass_map_mem _ _ _ 0 s.measurements (fun m _ i => by
    simp [Function.comp, toActuals_meas_value, simNormalUpdate_degenerate_value])

/-- C5: one application of `getSortedMeasurementSet` is a fixed point of a
second application (same measurements in the same order), and sorting
preserves the number of measurements. -/
theorem C5_sorted_idempotent_and_length_preserving (s : MeasurementSet) :
    getSortedMeasurementSet (getSortedMeasurementSet s) = getSortedMeasurementSet s ∧
    (getSortedMeasurementSet s).measurements.length = s.measurements.length := by
  refine ⟨measSet_eq_of_measurements ?_, sorted_length s⟩
  rw [sorted_measurements (getSortedMeasurementSet s), sorted_measurements s]
  exact congrArg List.flatten
    (List.map_congr_left fun t _ => getMeasurementsOfType_sorted s t)

/-- C6: entrywise, the weights vector is the reciprocal of the covariance
vector, both computed after the `1e-6` floor, in per-unit and in actual
units. -/
theorem C6_weights_reciprocal_of_covariance (s : MeasurementSet) (i : Nat)
    (h : i < s.measurements.length) :
    (getWeightsMatrix s).1.getD i 0 = ((getCovarianceMatrix s).1.getD i 0)⁻¹ ∧
    (getWeightsMatrixActuals s).1.getD i 0 =
      ((getCovarianceMatrixActuals s).1.getD i 0)⁻¹ := by
  constructor
  · rw [getWeightsMatrix, getCovarianceMatrix]
    rw [List.getD_eq_getElem _ _ (by simpa using h),
      List.getD_eq_getElem _ _ (by simpa using h),
      List.getElem_map, List.getElem_map, zpow_neg_two_eq]
  · rw [getWeightsMatrixActuals, getCovarianceMatrixActuals]
    rw [List.getD_eq_getElem _ _ (by simpa using h),
      List.getD_eq_getElem _ _ (by simpa using h),
      List.getElem_map, List.getElem_map, zpow_neg_two_eq]

/-- Witness for C6 at a concrete set and index. -/
theorem C6_weights_reciprocal_of_covariance_witness :
    0 < zeroStdSet.measurements.length ∧
    (getWeightsMatrix zeroStdSet).1.getD 0 0 =
      ((getCovarianceMatrix zeroStdSet).1.getD 0 0)⁻¹ :=
  ⟨by decide, (C6_weights_reciprocal_of_covariance zeroStdSet 0 (by decide)).1⟩

/-- C7: with `uncertainty_percent = 0`, simulation-mode noise injection under
either distribution leaves the value at the ideal value and sets the raw
standard deviation to zero, for any sample stream, both per measurement
(loop bodies) and for a whole set run through `meas_creation`. -/
theorem C7_zero_uncertainty_noiseless :
    (∀ (e : ℚ) (m : Measurement), m.unc = 0 →
      (simNormalUpdate e m).meas_value = m.meas_value_ideal ∧
      (simNormalUpdate e m).std_dev = 0 ∧
      (simUniformUpdate e m).meas_value = m.meas_value_ideal ∧
      (simUniformUpdate e m).std_dev = 0) ∧
    (∀ (dist : Dist) (z : Nat → ℚ) (sqrt3 : ℚ) (s : MeasurementSet),
      (∀ m ∈ s.measurements, m.unc = 0) →
      (meas_creation dist .simulation z sqrt3 s).measurements.map
          Measurement.meas_value =
        s.measurements.map Measurement.meas_value_ideal ∧
      (meas_creation dist .simulation z sqrt3 s).measurements.map
          Measurement.std_dev =
        s.measurements.map (fun _ => (0 : ℚ))) := by
  constructor
  · intro e m h
    exact ⟨(simNormalUpdate_zero_unc e m h).1, (simNormalUpdate_zero_unc e m h).2,
      (simUniformUpdate_zero_unc e m h).1, (simUniformUpdate_zero_unc e m h).2⟩
  · intro dist z sqrt3 s h
    cases dist with
    | normal =>
      constructor
      · show ((noisePass (fun i m => simNormalUpdate (normalDraw 0 0 (z i)) m) 0
            s.measurements).map (toActuals sqrt3)).map Measurement.meas_value = _
        rw [List.map_map]
        exact noisePass_map_mem _ _ _ 0 s.measurements (fun m hm i => by
          simp [Function.comp, toActuals_meas_value,
            (simNormalUpdate_zero_unc _ m (h m hm)).1])
      · show ((noisePass (fun i m => simNormalUpdate (normalDraw 0 0 (z i)) m) 0
            s.measurements).map (toActuals sqrt3)).map Measurement.std_dev = _
        rw [List.map_map]
        exact noisePass_map_mem _ _ _ 0 s.measurements (fun m hm i => by
          simp [Function.comp, toActuals_std_dev,
            (simNormalUpdate_zero_unc _ m (h m hm)).2])
    | uniform =>
      constructor
      · show ((noisePass (fun i m => simUniformUpdate (z i) m) 0
            s.measurements).map (toActuals sqrt3)).map Measurement.meas_value = _
        rw [List.map_map]
        exact noisePass_map_mem _ _ _ 0 s.measurements (fun m hm i => by
          simp [Function.comp, toActuals_meas_value,
            (simUniformUpdate_zero_unc _ m (h m hm)).1])
      · show ((noisePass (fun i m => simUniformUpdate (z i) m) 0
            s.measurements).map (toActuals sqrt3)).map Measurement.std_dev = _
        rw [List.map_map]
        exact noisePass_map_mem _ _ _ 0 s.measurements (fun m hm i => by
          simp [Function.comp, toActuals_std_dev,
            (simUniformUpdate_zero_unc _ m (h m hm)).2])

/-- Witness for C7: a one-measurement set with `unc = 0`. -/
theorem C7_zero_uncertainty_noiseless_witness :
    ((⟨nodeElem, .Node, .V_mag, 1, 0, 0, 0, 0, 0⟩ : Measurement).unc = 0 ∧
      (simNormalUpdate 7 ⟨nodeElem, .Node, .V_mag, 1, 0, 0, 0, 0, 0⟩).meas_value = 1) ∧
    ((∀ m ∈ (⟨[⟨nodeElem, .Node, .V_mag, 1, 0, 0, 0, 0, 0⟩]⟩ : MeasurementSet).measurements,
        m.unc = 0) ∧
      (meas_creation .uniform .simulation (fun _ => 1) 2
          ⟨[⟨nodeElem, .Node, .V_mag, 1, 0, 0, 0, 0, 0⟩]⟩).measurements.map
        Measurement.meas_value = [1]) :=
  ⟨⟨by decide,
    (C7_zero_uncertainty_noiseless.1 7 ⟨nodeElem, .Node, .V_mag, 1, 0, 0, 0, 0, 0⟩
      (by decide)).1⟩,
   ⟨by decide, by
    have h := (C7_zero_uncertainty_noiseless.2 .uniform (fun _ => 1) 2
      ⟨[⟨nodeElem, .Node, .V_mag, 1, 0, 0, 0, 0, 0⟩]⟩ (by decide)).1
    simpa using h⟩⟩

/-- C8: the per-family PU→actual conversion applied by the actuals pass of
`meas_creation`, followed by the actual→PU conversion used by the live-update
path, reproduces the stored per-unit value exactly (the embedding is over
`ℚ`, so the floating-point tolerance of the claim sharpens to equality),
provided the element's base quantities and `sqrt3` are nonzero. -/
theorem C8_unit_conversion_roundtrip (sqrt3 : ℚ) (m : Measurement)
    (hs : sqrt3 ≠ 0) (hv : m.element.baseVoltage ≠ 0)
    (hc : m.element.base_current ≠ 0)
    (hp : m.element.base_apparent_power ≠ 0) :
    actualToPu sqrt3 m ((toActuals sqrt3 m).meas_value_act) = m.meas_value := by
  obtain ⟨el, et, mt, ideal, unc, sd, sda, mv, mva⟩ := m
  simp only [Element.mk.injEq] at hv hc hp
  cases mt <;>
    simp [toActuals, actualToPu, type_volt, type_curr, type_power, type_phase] <;>
    first
      | exact mul_div_cancel_right₀ _ (div_ne_zero hv hs)
      | exact mul_div_cancel_right₀ _ hc
      | exact mul_div_cancel_right₀ _ (div_ne_zero hp (by norm_num))

/-- Witness for C8 at a concrete measurement with nonzero bases. -/
theorem C8_unit_conversion_roundtrip_witness :
    (2 : ℚ) ≠ 0 ∧ rtMeas.element.baseVoltage ≠ 0 ∧
    actualToPu 2 rtMeas ((toActuals 2 rtMeas).meas_value_act) = rtMeas.meas_value :=
  ⟨by norm_num, by decide,
   C8_unit_conversion_roundtrip 2 rtMeas (by norm_num) (by decide) (by decide)
     (by decide)⟩

/-- C9: a live update whose element identifier / quantity kind matches no
stored measurement under the four matching rules returns the set unchanged
(every stored field of every measurement is untouched); in the embedding the
operation is total, so no exception can be raised. -/
theorem C9_unmatched_update_noop (element_uuid : String) (mt : MeasType)
    (d : ℚ) (b : Bool) (sqrt3 : ℚ) (s : MeasurementSet)
    (h : ∀ m ∈ s.measurements, ¬ updateMatches element_uuid mt m) :
    update_measurement s element_uuid mt d b sqrt3 = s := by
  apply measSet_eq_of_measurements
  show s.measurements.map (update_one element_uuid mt d b sqrt3) = s.measurements
  have hid : ∀ m ∈ s.measurements, update_one element_uuid mt d b sqrt3 m = m := by
    intro m hm
    have hnm := h m hm
    unfold updateMatches at hnm
    by_cases huu : m.element.uuid = element_uuid
    · have hg1 : ¬(mt = .Vpmu_mag ∧ (m.meas_type = .Vpmu_mag ∨ m.meas_type = .V_mag)) :=
        fun hg => hnm ⟨huu, Or.inl hg⟩
      have hg2 : ¬(mt = .Ipmu_mag ∧
          (m.meas_type = .Ipmu_mag ∨ m.meas_type = .I_mag ∨ m.meas_type = .Ipmu_inj_mag)) :=
        fun hg => hnm ⟨huu, Or.inr (Or.inl hg)⟩
      have hg3 : ¬(mt = m.meas_type ∧
          (mt = .S1_real ∨ mt = .S1_imag ∨ mt = .Sinj_imag ∨ mt = .Sinj_imag)) := by
        rintro ⟨he, hd⟩
        refine hnm ⟨huu, Or.inr (Or.inr (Or.inl ⟨he, ?_⟩))⟩
        rcases hd with h' | h' | h' | h' <;> tauto
      have hg4 : ¬(mt = m.meas_type ∧
          (mt = .Vpmu_phase ∨ mt = .Ipmu_phase ∨ mt = .Ipmu_inj_phase)) :=
        fun hg => hnm ⟨huu, Or.inr (Or.inr (Or.inr hg))⟩
      rw [update_one, if_pos huu, if_neg hg1, if_neg hg2, if_neg hg3, if_neg hg4]
    · rw [update_one, if_neg huu]
  calc s.measurements.map (update_one element_uuid mt d b sqrt3)
      = s.measurements.map id := List.map_congr_left hid
    _ = s.measurements := List.map_id _

/-- Witness for C9: updating an element identifier not present in the set. -/
theorem C9_unmatched_update_noop_witness :
    (∀ m ∈ sinjSet.measurements, ¬ updateMatches "N2" .Vpmu_mag m) ∧
    update_measurement sinjSet "N2" .Vpmu_mag 5 true 2 = sinjSet :=
  ⟨by decide, C9_unmatched_update_noop "N2" .Vpmu_mag 5 true 2 sinjSet (by decide)⟩

/-- C1: the value vectors have one slot per measurement in set order; every
zipped phasor (magnitude, phase) pair of a family is rewritten to
`mag * cos(phase)` in the magnitude slot and `mag * sin(phase)` in the phase
slot, reading the raw stored values, in both the per-unit and actual vectors;
and in the spec scenario (field mode, one `Vpmu_mag` with ideal `1.02`, one
`Vpmu_phase` with ideal `-0.05`) the two entries come out as
`1.02*cos(-0.05)` and `1.02*sin(-0.05)`, not `1.02` and `-0.05`. -/
theorem C1_values_rectangular_decomposition :
    (∀ (c s' : ℚ → ℚ) (s : MeasurementSet),
      (getMeasValues c s' s).length = s.measurements.length ∧
      (getMeasValuesActuals c s' s).length = s.measurements.length) ∧
    (∀ (c s' : ℚ → ℚ) (s : MeasurementSet) (f : Fam) (i j : Nat),
      (i, j) ∈ famPairs s f →
      (getMeasValues c s' s).getD i 0 =
        (s.measurements.map Measurement.meas_value).getD i 0 *
          c ((s.measurements.map Measurement.meas_value).getD j 0) ∧
      (getMeasValues c s' s).getD j 0 =
        (s.measurements.map Measurement.meas_value).getD i 0 *
          s' ((s.measurements.map Measurement.meas_value).getD j 0) ∧
      (getMeasValuesActuals c s' s).getD i 0 =
        (s.measurements.map Measurement.meas_value_act).getD i 0 *
          c ((s.measurements.map Measurement.meas_value_act).getD j 0) ∧
      (getMeasValuesActuals c s' s).getD j 0 =
        (s.measurements.map Measurement.meas_value_act).getD i 0 *
          s' ((s.measurements.map Measurement.meas_value_act).getD j 0)) ∧
    (∀ (c s' : ℚ → ℚ) (dist : Dist) (z : Nat → ℚ) (sqrt3 : ℚ),
      getMeasValues c s' (meas_creation dist .field z sqrt3 pmuScenarioSet) =
        [51/50 * c (-(1/20)), 51/50 * s' (-(1/20))]) := by
  refine ⟨fun c s' s => ⟨measVectorBy_length c s' _ s, measVectorBy_length c s' _ s⟩,
    fun c s' s f i j hmem => ?_, fun c s' dist z sqrt3 => by cases dist <;> rfl⟩
  obtain ⟨h1, h2⟩ := measVectorBy_getD_pair c s' (fun m => m.meas_value) s hmem
  obtain ⟨h3, h4⟩ := measVectorBy_getD_pair c s' (fun m => m.meas_value_act) s hmem
  exact ⟨h1, h2, h3, h4⟩

/-- Witness for C1: the zipped pair `(0, 1)` of the voltage family of the
scenario set. -/
theorem C1_values_rectangular_decomposition_witness :
    (0, 1) ∈ famPairs pmuScenarioSet Fam.volt ∧
    (getMeasValues (fun q => q) (fun q => q) pmuScenarioSet).getD 0 0 =
      (pmuScenarioSet.measurements.map Measurement.meas_value).getD 0 0 *
        (pmuScenarioSet.measurements.map Measurement.meas_value).getD 1 0 :=
  ⟨by decide,
   (C1_values_rectangular_decomposition.2.1 (fun q => q) (fun q => q)
     pmuScenarioSet Fam.volt 0 1 (by decide)).1⟩

/-- C10: phasor pairing in the value vector is purely positional.  The zipped
pair list of a family has `min(count_mag, count_phase)` entries; its `k`-th
entry pairs the `k`-th magnitude index with the `k`-th phase index (whatever
elements they reference); the two slots of each zipped pair are rewritten to
rectangular form; and every slot not covered by a zipped pair keeps its raw
stored value. -/
theorem C10_positional_pairing_and_truncation :
    (∀ (s : MeasurementSet) (f : Fam),
      (famPairs s f).length =
        min (getIndexOfMeasurements s (famMag f)).length
          (getIndexOfMeasurements s (famPhase f)).length) ∧
    (∀ (s : MeasurementSet) (f : Fam) (k : Nat),
      k < (famPairs s f).length →
      (famPairs s f).getD k (0, 0) =
        ((getIndexOfMeasurements s (famMag f)).getD k 0,
         (getIndexOfMeasurements s (famPhase f)).getD k 0)) ∧
    (∀ (c s' : ℚ → ℚ) (s : MeasurementSet) (f : Fam) (k : Nat),
      k < (famPairs s f).length →
      (getMeasValues c s' s).getD ((famPairs s f).getD k (0, 0)).1 0 =
        (s.measurements.map Measurement.meas_value).getD
            ((famPairs s f).getD k (0, 0)).1 0 *
          c ((s.measurements.map Measurement.meas_value).getD
            ((famPairs s f).getD k (0, 0)).2 0) ∧
      (getMeasValues c s' s).getD ((famPairs s f).getD k (0, 0)).2 0 =
        (s.measurements.map Measurement.meas_value).getD
            ((famPairs s f).getD k (0, 0)).1 0 *
          s' ((s.measurements.map Measurement.meas_value).getD
            ((famPairs s f).getD k (0, 0)).2 0)) ∧
    (∀ (c s' : ℚ → ℚ) (s : MeasurementSet) (i : Nat),
      (∀ f : Fam, i ∉ (famPairs s f).map Prod.fst ∧ i ∉ (famPairs s f).map Prod.snd) →
      (getMeasValues c s' s).getD i 0 =
        (s.measurements.map Measurement.meas_value).getD i 0) := by
  refine ⟨famPairs_length, fun s f k hk => famPairs_getD hk,
    fun c s' s f k hk => ?_, fun c s' s i h => measVectorBy_getD_not_mem c s' _ s 0 h⟩
  exact measVectorBy_getD_pair c s' (fun m => m.meas_value) s (famPairs_getD_mem hk)

/-- A branch element for the current-phasor witness set. -/
def branchElem : Element := ⟨"B7", 1, 1, 1⟩

/-- A set with one current-phasor magnitude/phase pair holding stored values
2 and 3. -/
def ipmuSet : MeasurementSet :=
  ⟨[⟨branchElem, .Branch, .Ipmu_mag, 2, 1, 0, 0, 2, 0⟩,
    ⟨branchElem, .Branch, .Ipmu_phase, 3, 1, 0, 0, 3, 0⟩]⟩

/-- Witness for C10 on the current-phasor family at position 0. -/
theorem C10_positional_pairing_and_truncation_witness :
    0 < (famPairs ipmuSet Fam.curr).length ∧
    (getMeasValues (fun q => q) (fun q => q + 1) ipmuSet).getD
        ((famPairs ipmuSet Fam.curr).getD 0 (0, 0)).1 0 =
      (ipmuSet.measurements.map Measurement.meas_value).getD
          ((famPairs ipmuSet Fam.curr).getD 0 (0, 0)).1 0 *
        (ipmuSet.measurements.map Measurement.meas_value).getD
          ((famPairs ipmuSet Fam.curr).getD 0 (0, 0)).2 0 :=
  ⟨by decide,
   (C10_positional_pairing_and_truncation.2.2.1 (fun q => q) (fun q => q + 1)
     ipmuSet Fam.curr 0 (by decide)).1⟩

/-- The write performed by the power branch of the live-update path
(lines 104-112). -/
def powerWrite (meas_data : ℚ) (value_in_pu : Bool) (m : Measurement) :
    Measurement :=
  if ¬ value_in_pu then
    { m with meas_value := meas_data / (m.element.base_apparent_power / 3),
             meas_value_act := meas_data }
  else
    { m with meas_value := meas_data,
             meas_value_act := meas_data * (m.element.base_apparent_power / 3) }

theorem update_one_power_eq (element_uuid : String) (d : ℚ) (b : Bool)
    (sqrt3 : ℚ) (m : Measurement) (mt : MeasType)
    (hmem : mt = .S1_real ∨ mt = .S1_imag ∨ mt = .Sinj_imag)
    (hnv : mt ≠ .Vpmu_mag) (hni : mt ≠ .Ipmu_mag)
    (hph : ¬(mt = .Vpmu_phase ∨ mt = .Ipmu_phase ∨ mt = .Ipmu_inj_phase)) :
    update_one element_uuid mt d b sqrt3 m =
      if m.element.uuid = element_uuid ∧ m.meas_type = mt then powerWrite d b m
      else m := by
  by_cases huu : m.element.uuid = element_uuid
  · rw [update_one, if_pos huu, if_neg (fun hg => hnv hg.1),
      if_neg (fun hg => hni hg.1)]
    by_cases hmt : m.meas_type = mt
    · have hcond : mt = m.meas_type ∧
          (mt = .S1_real ∨ mt = .S1_imag ∨ mt = .Sinj_imag ∨ mt = .Sinj_imag) :=
        ⟨hmt.symm, by tauto⟩
      have hcond' : m.element.uuid = element_uuid ∧ m.meas_type = mt := ⟨huu, hmt⟩
      rw [if_pos hcond, if_pos hcond']
      rfl
    · rw [if_neg (fun hg => hmt hg.1.symm), if_neg (fun hg => hph hg.2),
        if_neg (fun hg => hmt hg.2)]
  · rw [update_one, if_neg huu, if_neg (fun hg => huu hg.1)]

theorem update_one_power_noop (element_uuid : String) (d : ℚ) (b : Bool)
    (sqrt3 : ℚ) (m : Measurement) (mt : MeasType)
    (hnv : mt ≠ .Vpmu_mag) (hni : mt ≠ .Ipmu_mag)
    (hq : ¬(mt = .S1_real ∨ mt = .S1_imag ∨ mt = .Sinj_imag ∨ mt = .Sinj_imag))
    (hph : ¬(mt = .Vpmu_phase ∨ mt = .Ipmu_phase ∨ mt = .Ipmu_inj_phase)) :
    update_one element_uuid mt d b sqrt3 m = m := by
  by_cases huu : m.element.uuid = element_uuid
  · rw [update_one, if_pos huu, if_neg (fun hg => hnv hg.1),
      if_neg (fun hg => hni hg.1), if_neg (fun hg => hq hg.2),
      if_neg (fun hg => hph hg.2)]
  · rw [update_one, if_neg huu]

theorem update_measurement_noop_of_kind (element_uuid : String) (d : ℚ)
    (b : Bool) (sqrt3 : ℚ) (s : MeasurementSet) (mt : MeasType)
    (hnv : mt ≠ .Vpmu_mag) (hni : mt ≠ .Ipmu_mag)
    (hq : ¬(mt = .S1_real ∨ mt = .S1_imag ∨ mt = .Sinj_imag ∨ mt = .Sinj_imag))
    (hph : ¬(mt = .Vpmu_phase ∨ mt = .Ipmu_phase ∨ mt = .Ipmu_inj_phase)) :
    update_measurement s element_uuid mt d b sqrt3 = s := by
  apply measSet_eq_of_measurements
  show s.measurements.map (update_one element_uuid mt d b sqrt3) = s.measurements
  calc s.measurements.map (update_one element_uuid mt d b sqrt3)
      = s.measurements.map id :=
        List.map_congr_left fun m _ =>
          update_one_power_noop element_uuid d b sqrt3 m mt hnv hni hq hph
    _ = s.measurements := List.map_id _

/-- Counterexample to C3: `Sinj_real` is a power kind, the stored measurement
has exactly that quantity kind and the matching element, the incoming datum
is `5`, yet `update_measurement` returns the set unchanged (the stored value
stays `0`), because the power guard lists only `S1_real`, `S1_imag` and
`Sinj_imag` (the latter twice). -/
theorem C3_exact_power_kind_not_updated :
    update_measurement sinjSet "N1" .Sinj_real 5 true 2 = sinjSet ∧
    sinjSet.measurements.map Measurement.meas_value = [0] := by
  decide

/-- C3 amended: a power-kind live update fires only for the kinds `S1_real`,
`S1_imag` and `Sinj_imag`: for those, exactly the measurements whose element
matches and whose quantity kind equals the incoming kind are rewritten via
the `base_apparent_power/3` conversion; incoming `Sinj_real`, `S2_real` and
`S2_imag` are silent no-ops on every set. -/
theorem C3_power_update_amended (element_uuid : String) (d : ℚ) (b : Bool)
    (sqrt3 : ℚ) (s : MeasurementSet) :
    ((update_measurement s element_uuid .S1_real d b sqrt3).measurements =
      s.measurements.map (fun m =>
        if m.element.uuid = element_uuid ∧ m.meas_type = .S1_real then
          powerWrite d b m
        else m)) ∧
    ((update_measurement s element_uuid .S1_imag d b sqrt3).measurements =
      s.measurements.map (fun m =>
        if m.element.uuid = element_uuid ∧ m.meas_type = .S1_imag then
          powerWrite d b m
        else m)) ∧
    ((update_measurement s element_uuid .Sinj_imag d b sqrt3).measurements =
      s.measurements.map (fun m =>
        if m.element.uuid = element_uuid ∧ m.meas_type = .Sinj_imag then
          powerWrite d b m
        else m)) ∧
    update_measurement s element_uuid .Sinj_real d b sqrt3 = s ∧
    update_measurement s element_uuid .S2_real d b sqrt3 = s ∧
    update_measurement s element_uuid .S2_imag d b sqrt3 = s := by
  refine ⟨List.map_congr_left fun m _ =>
      update_one_power_eq element_uuid d b sqrt3 m .S1_real (by tauto)
        (by decide) (by decide) (by decide),
    List.map_congr_left fun m _ =>
      update_one_power_eq element_uuid d b sqrt3 m .S1_imag (by tauto)
        (by decide) (by decide) (by decide),
    List.map_congr_left fun m _ =>
      update_one_power_eq element_uuid d b sqrt3 m .Sinj_imag (by tauto)
        (by decide) (by decide) (by decide),
    update_measurement_noop_of_kind element_uuid d b sqrt3 s .Sinj_real
      (by decide) (by decide) (by decide) (by decide),
    update_measurement_noop_of_kind element_uuid d b sqrt3 s .S2_real
      (by decide) (by decide) (by decide) (by decide),
    update_measurement_noop_of_kind element_uuid d b sqrt3 s .S2_imag
      (by decide) (by decide) (by decide) (by decide)⟩

theorem floorStd_eq_max (m : Measurement) :
    floorStd m = { m with std_dev := max m.std_dev ((10 : ℚ) ^ (-6 : ℤ)) } := by
  unfold floorStd
  by_cases h : m.std_dev < (10 : ℚ) ^ (-6 : ℤ)
  · rw [if_pos h, max_eq_right h.le]
  · rw [if_neg h, max_eq_left (not_lt.mp h)]

theorem floorStdAct_eq_max (m : Measurement) :
    floorStdAct m = { m with std_dev_act := max m.std_dev_act ((10 : ℚ) ^ (-6 : ℤ)) } := by
  unfold floorStdAct
  by_cases h : m.std_dev_act < (10 : ℚ) ^ (-6 : ℤ)
  · rw [if_pos h, max_eq_right h.le]
  · rw [if_neg h, max_eq_left (not_lt.mp h)]

/-- Counterexample to C4: calling `getWeightsMatrix` on a set holding a
measurement with `std_dev = 0` does not leave the stored field unchanged: the
post-call set differs from the input, with the stored `std_dev` overwritten
by the floor `10^(-6)`. -/
theorem C4_weights_mutate_stored_std :
    (getWeightsMatrix zeroStdSet).2 ≠ zeroStdSet ∧
    (getWeightsMatrix zeroStdSet).2.measurements.map Measurement.std_dev =
      [(10 : ℚ) ^ (-6 : ℤ)] ∧
    zeroStdSet.measurements.map Measurement.std_dev = [0] := by
  refine ⟨?_, ?_, by decide⟩
  · simp [getWeightsMatrix, zeroStdSet, floorStd]
    norm_num
  · simp [getWeightsMatrix, zeroStdSet, floorStd]
    norm_num

/-- C4 amended: the `1e-6` floor is applied inside weight and covariance
assembly by writing the floored value back into the stored field: after any
of the four getters every affected stored deviation equals
`max(old, 10^(-6))` (so fields at or above the floor are untouched, ones
below it are permanently raised), the per-unit getters touch only `std_dev`,
and the actuals getters touch only `std_dev_act`. -/
theorem C4_floor_bakes_into_stored_field (s : MeasurementSet) :
    ((getWeightsMatrix s).2.measurements =
      s.measurements.map (fun m =>
        { m with std_dev := max m.std_dev ((10 : ℚ) ^ (-6 : ℤ)) })) ∧
    ((getCovarianceMatrix s).2.measurements =
      s.measurements.map (fun m =>
        { m with std_dev := max m.std_dev ((10 : ℚ) ^ (-6 : ℤ)) })) ∧
    ((getWeightsMatrixActuals s).2.measurements =
      s.measurements.map (fun m =>
        { m with std_dev_act := max m.std_dev_act ((10 : ℚ) ^ (-6 : ℤ)) })) ∧
    ((getCovarianceMatrixActuals s).2.measurements =
      s.measurements.map (fun m =>
        { m with std_dev_act := max m.std_dev_act ((10 : ℚ) ^ (-6 : ℤ)) })) :=
  ⟨List.map_congr_left fun m _ => floorStd_eq_max m,
   List.map_congr_left fun m _ => floorStd_eq_max m,
   List.map_congr_left fun m _ => floorStdAct_eq_max m,
   List.map_congr_left fun m _ => floorStdAct_eq_max m⟩

end Pyvolt
